import Mathlib

/-
Verification of the layout-caching core: the `Paragraph` backend contract,
the `Plain` cached wrapper (src/core/src/text/paragraph.rs), and the
`RedrawRequest` ordering (src/core/src/window/redraw_request.rs).

The two Rust source files are embedded shallowly below.  Auxiliary types
(`Text`, `Size`, `Difference`, `Hit`, `Point`, alignments, shaping mode)
live elsewhere in the repository; they are modelled from the spec, with
scalar fields rendered as rationals.  The `Paragraph` trait becomes a
record of operations over an abstract paragraph type, and `Plain`'s
methods become pure functions taking such a record.
-/

namespace Iced

/-- Modelled from the spec: a width × height box (the `Size` type of the
repository, not under src/); scalar dimensions are modelled as rationals. -/
structure Size where
  width : ℚ
  height : ℚ
deriving DecidableEq

/-- Modelled from the spec: a 2-D point handed to hit tests (the `Point`
type of the repository, not under src/). -/
structure Point where
  x : ℚ
  y : ℚ
deriving DecidableEq

/-- Modelled from the spec: a hit-test result identifying the nearest
character (the `Hit` type of the repository, not under src/). -/
inductive Hit where
  | CharOffset : ℕ → Hit
deriving DecidableEq

/-- Modelled from the spec: horizontal alignment of a paragraph (the
`alignment::Horizontal` type of the repository, not under src/). -/
inductive Horizontal where
  | Left
  | Center
  | Right
deriving DecidableEq

/-- Modelled from the spec: vertical alignment of a paragraph (the
`alignment::Vertical` type of the repository, not under src/). -/
inductive Vertical where
  | Top
  | Center
  | Bottom
deriving DecidableEq

/-- Modelled from the spec: the shaping strategy, fast-ASCII-only versus
full Unicode-aware (the `Shaping` type of the repository, not under src/). -/
inductive Shaping where
  | Basic
  | Advanced
deriving DecidableEq

/-- Modelled from the spec: a font-size value in pixels (the `Pixels` type
of the repository, not under src/), rendered as a rational. -/
abbrev Pixels := ℚ

/-- Modelled from the spec: a line-height value (the `LineHeight` type of
the repository, not under src/), rendered as a rational. -/
abbrev LineHeight := ℚ

/-- Modelled from the spec: a styled sub-range of a spanned text request
(the `Span` type of the repository, not under src/): content plus optional
per-span styling overrides. -/
structure Span (F : Type) where
  content : String
  font : Option F
  size : Option Pixels
deriving DecidableEq

/-- Modelled from the spec: a text request — content plus layout bounds,
font size, line height, font handle, alignments and shaping mode (the
`Text` struct of the repository, not under src/).  `C` is the content
type: `String` for plain requests, `Unit` for the content-less projection
handed to `compare`. -/
structure Text (C : Type) (F : Type) where
  content : C
  bounds : Size
  size : Pixels
  line_height : LineHeight
  font : F
  horizontal_alignment : Horizontal
  vertical_alignment : Vertical
  shaping : Shaping
deriving DecidableEq

/-- The three-valued outcome of `Paragraph::compare` (the `Difference`
enum of the repository, not under src/): nothing changed, only the bounds
changed, or the shape of the text changed. -/
inductive Difference where
  | None
  | Bounds
  | Shape
deriving DecidableEq

/-- The `Paragraph` trait of src/core/src/text/paragraph.rs, embedded as a
record of operations over an abstract paragraph type `P` with font type
`F`.  Mutating Rust methods (`resize`) become state-passing functions.
`min_width` and `min_height` are trait methods with default bodies, so
they are fields here (implementations may override them). -/
structure Paragraph (P : Type) (F : Type) where
  default : P
  with_text : Text String F → P
  with_spans : Text (List (Span F)) F → P
  resize : P → Size → P
  compare : P → Text Unit F → Difference
  horizontal_alignment : P → Horizontal
  vertical_alignment : P → Vertical
  min_bounds : P → Size
  hit_test : P → Point → Option Hit
  grapheme_position : P → ℕ → ℕ → Option Point
  min_width : P → ℚ
  min_height : P → ℚ

/-- The default body of the trait method `min_width`:
`self.min_bounds().width`. -/
def Paragraph.min_width_default (B : Paragraph P F) (p : P) : ℚ :=
  (B.min_bounds p).width

/-- The default body of the trait method `min_height`:
`self.min_bounds().height`. -/
def Paragraph.min_height_default (B : Paragraph P F) (p : P) : ℚ :=
  (B.min_bounds p).height

/-- The `Plain` struct of src/core/src/text/paragraph.rs: a cached
paragraph plus an owned copy of the content string it was built from. -/
structure Plain (P : Type) where
  raw : P
  content : String
deriving DecidableEq

/-- `Plain::new`: build the paragraph from the request and own a copy of
its content. -/
def Plain.new (B : Paragraph P F) (text : Text String F) : Plain P :=
  { raw := B.with_text text, content := text.content }

/-- The content-less projection built inline in `Plain::update`
(src/core/src/text/paragraph.rs lines 78–87): the same bounds, size, line
height, font, alignments and shaping mode, with the content elided. -/
def Text.without_content (t : Text C F) : Text Unit F :=
  { content := ()
    bounds := t.bounds
    size := t.size
    line_height := t.line_height
    font := t.font
    horizontal_alignment := t.horizontal_alignment
    vertical_alignment := t.vertical_alignment
    shaping := t.shaping }

/-- `Plain::update` (src/core/src/text/paragraph.rs lines 71–96): if the
content differs, store the new content and fully rebuild; otherwise
compare the content-less projection of the request (`Text.without_content`
is the struct literal of lines 78–87) and act on the classification. -/
def Plain.update (B : Paragraph P F) (s : Plain P) (text : Text String F) :
    Plain P :=
  if s.content ≠ text.content then
    { raw := B.with_text text, content := text.content }
  else
    match B.compare s.raw (Text.without_content text) with
    | Difference.None => s
    | Difference.Bounds => { s with raw := B.resize s.raw text.bounds }
    | Difference.Shape => { s with raw := B.with_text text }

/-- `Plain::horizontal_alignment`: forwards to the owned paragraph. -/
def Plain.horizontal_alignment (B : Paragraph P F) (s : Plain P) :
    Horizontal :=
  B.horizontal_alignment s.raw

/-- `Plain::vertical_alignment`: forwards to the owned paragraph. -/
def Plain.vertical_alignment (B : Paragraph P F) (s : Plain P) : Vertical :=
  B.vertical_alignment s.raw

/-- `Plain::min_bounds`: forwards to the owned paragraph. -/
def Plain.min_bounds (B : Paragraph P F) (s : Plain P) : Size :=
  B.min_bounds s.raw

/-- `Plain::min_width`: forwards to the owned paragraph. -/
def Plain.min_width (B : Paragraph P F) (s : Plain P) : ℚ :=
  B.min_width s.raw

/-- `Plain::raw`: returns the cached paragraph. -/
def Plain.raw' (s : Plain P) : P :=
  s.raw

/-- The `RedrawRequest` enum of src/core/src/window/redraw_request.rs,
parametric in the instant type `I` (`std::time::Instant` is external). -/
inductive RedrawRequest (I : Type) where
  | NextFrame : RedrawRequest I
  | At : I → RedrawRequest I
deriving DecidableEq

/-- The `≤` relation produced by Rust's `derive(PartialOrd, Ord)` on
`RedrawRequest`: variants compare by declaration order (`NextFrame`
first), and `At` payloads compare by the instant ordering. -/
def RedrawRequest.le [LE I] : RedrawRequest I → RedrawRequest I → Prop
  | RedrawRequest.NextFrame, _ => True
  | RedrawRequest.At _, RedrawRequest.NextFrame => False
  | RedrawRequest.At a, RedrawRequest.At b => a ≤ b

/-- The `<` relation produced by Rust's `derive(PartialOrd, Ord)` on
`RedrawRequest`. -/
def RedrawRequest.lt [LT I] : RedrawRequest I → RedrawRequest I → Prop
  | RedrawRequest.NextFrame, RedrawRequest.NextFrame => False
  | RedrawRequest.NextFrame, RedrawRequest.At _ => True
  | RedrawRequest.At _, RedrawRequest.NextFrame => False
  | RedrawRequest.At a, RedrawRequest.At b => a < b

instance [LE I] : LE (RedrawRequest I) :=
  ⟨RedrawRequest.le⟩

instance [LT I] : LT (RedrawRequest I) :=
  ⟨RedrawRequest.lt⟩

/-- Decidability of the derived `≤` on `RedrawRequest`, given a decidable
instant order. -/
def RedrawRequest.decLe [LinearOrder I] :
    ∀ a b : RedrawRequest I, Decidable (a ≤ b)
  | RedrawRequest.NextFrame, _ => isTrue trivial
  | RedrawRequest.At _, RedrawRequest.NextFrame => isFalse (fun h => h)
  | RedrawRequest.At a, RedrawRequest.At b =>
      inferInstanceAs (Decidable (a ≤ b))

/-- The derived ordering on `RedrawRequest` is a linear order whenever the
instant type is one. -/
instance [LinearOrder I] : LinearOrder (RedrawRequest I) where
  le := RedrawRequest.le
  lt := RedrawRequest.lt
  le_refl a := by
    cases a with
    | NextFrame => exact trivial
    | At a => exact le_refl a
  le_trans a b c hab hbc := by
    cases a <;> cases b <;> cases c <;>
      first
        | exact trivial
        | exact hab.elim
        | exact hbc.elim
        | exact le_trans hab hbc
  lt_iff_le_not_le a b := by
    cases a <;> cases b
    · exact Iff.intro (fun h => h.elim) (fun h => h.2 trivial)
    · exact Iff.intro (fun _ => And.intro trivial (fun h => h))
        (fun _ => trivial)
    · exact Iff.intro (fun h => h.elim) (fun h => h.1)
    · exact lt_iff_le_not_le
  le_antisymm a b h₁ h₂ := by
    cases a <;> cases b <;>
      first
        | rfl
        | exact h₁.elim
        | exact h₂.elim
        | exact congrArg RedrawRequest.At (le_antisymm h₁ h₂)
  le_total a b := by
    cases a <;> cases b <;>
      first
        | exact Or.inl trivial
        | exact Or.inr trivial
        | exact le_total _ _
  decidableLE := RedrawRequest.decLe

/-- A concrete conforming backend used to exercise the contract on
concrete inputs: a paragraph is represented by exactly its build
parameters, `resize` stores the new bounds, and `compare` classifies as
the spec's contract prescribes (unchanged when every compared field
matches, bounds-only when only the bounds differ, shape otherwise). -/
def modelBackend : Paragraph (Text Unit Unit) Unit where
  default := Text.without_content
    (⟨"", ⟨0, 0⟩, 0, 0, (), Horizontal.Left, Vertical.Top, Shaping.Basic⟩ :
      Text String Unit)
  with_text t := Text.without_content t
  with_spans t := Text.without_content t
  resize p b := { p with bounds := b }
  compare p q :=
    if p = q then Difference.None
    else if { p with bounds := q.bounds } = q then Difference.Bounds
    else Difference.Shape
  horizontal_alignment p := p.horizontal_alignment
  vertical_alignment p := p.vertical_alignment
  min_bounds p := p.bounds
  hit_test _ _ := Option.none
  grapheme_position _ _ _ := Option.none
  min_width p := p.bounds.width
  min_height p := p.bounds.height

/-- A sample request: content "Hello" in a 100 × 20 box. -/
def sampleTextA : Text String Unit :=
  { content := "Hello"
    bounds := { width := 100, height := 20 }
    size := 16
    line_height := 20
    font := ()
    horizontal_alignment := Horizontal.Left
    vertical_alignment := Vertical.Top
    shaping := Shaping.Basic }

/-- A sample request identical to `sampleTextA` except for its content. -/
def sampleTextB : Text String Unit :=
  { sampleTextA with content := "World" }

/-- A sample cached wrapper built from `sampleTextA`. -/
def samplePlainA : Plain (Text Unit Unit) :=
  Plain.new modelBackend sampleTextA

/-- `NextFrame` is a least element of the derived order. -/
theorem RedrawRequest.nextFrame_le [LinearOrder I] (r : RedrawRequest I) :
    (RedrawRequest.NextFrame : RedrawRequest I) ≤ r := by
  cases r with
  | NextFrame => exact trivial
  | At a => exact trivial

/-- Folding `min` from `NextFrame` stays at `NextFrame`. -/
theorem RedrawRequest.foldl_min_nextFrame [LinearOrder I]
    (l : List (RedrawRequest I)) :
    List.foldl min RedrawRequest.NextFrame l = RedrawRequest.NextFrame := by
  induction l with
  | nil => rfl
  | cons x xs ih =>
      rw [List.foldl_cons, min_eq_left (RedrawRequest.nextFrame_le x)]
      exact ih

/-- If `NextFrame` occurs in the tail, the `min`-fold collapses to it. -/
theorem RedrawRequest.foldl_min_of_mem [LinearOrder I]
    (l : List (RedrawRequest I)) (a : RedrawRequest I)
    (h : RedrawRequest.NextFrame ∈ l) :
    List.foldl min a l = RedrawRequest.NextFrame := by
  induction l generalizing a with
  | nil => exact absurd h (List.not_mem_nil _)
  | cons x xs ih =>
      rcases List.mem_cons.mp h with h₁ | h₂
      · rw [List.foldl_cons, ← h₁,
          min_eq_right (RedrawRequest.nextFrame_le a)]
        exact RedrawRequest.foldl_min_nextFrame xs
      · rw [List.foldl_cons]
        exact ih (min a x) h₂

/-- The stored content always equals the request content after `update`:
the differing-content path overwrites it, every other path requires it to
be equal already and leaves it untouched. -/
theorem Plain.update_content_eq (B : Paragraph P F) (s : Plain P)
    (t : Text String F) : (Plain.update B s t).content = t.content := by
  unfold Plain.update
  by_cases h : s.content = t.content
  · rw [if_neg (fun hne => hne h)]
    split <;> exact h
  · rw [if_pos h]

/-- If the content matches and `compare` classifies the projection as
unchanged, `update` returns the state it was given. -/
theorem Plain.update_noop (B : Paragraph P F) (s : Plain P)
    (t : Text String F) (hc : s.content = t.content)
    (hd : B.compare s.raw (Text.without_content t) = Difference.None) :
    Plain.update B s t = s := by
  unfold Plain.update
  rw [if_neg (fun hne => hne hc), hd]

/-- C1: when the request's content differs from the stored content,
`Plain::update` stores the request's content and replaces the paragraph
with a full `with_text` rebuild of the full request; the result depends
only on `with_text` (so neither the `compare` step nor the `resize` path
is taken), and afterwards the stored content equals the request's. -/
theorem update_content_changed (B : Paragraph P F) (s : Plain P)
    (t : Text String F) (h : s.content ≠ t.content) :
    Plain.update B s t = { raw := B.with_text t, content := t.content } ∧
    (Plain.update B s t).content = t.content ∧
    ∀ B' : Paragraph P F, B'.with_text = B.with_text →
      Plain.update B' s t = Plain.update B s t := by
  have h₁ : Plain.update B s t =
      { raw := B.with_text t, content := t.content } := by
    unfold Plain.update
    rw [if_pos h]
  refine ⟨h₁, by rw [h₁], fun B' hB => ?_⟩
  unfold Plain.update
  rw [if_pos h, if_pos h, hB]

/-- Witness for C1 at a concrete state and request with differing
content. -/
theorem update_content_changed_app :
    samplePlainA.content ≠ sampleTextB.content ∧
    Plain.update modelBackend samplePlainA sampleTextB =
      { raw := modelBackend.with_text sampleTextB,
        content := sampleTextB.content } :=
  ⟨by decide,
    (update_content_changed modelBackend samplePlainA sampleTextB
      (by decide)).1⟩

/-- C2: when the request's content equals the stored content,
`Plain::update` passes the content-less projection of the request
(`Text.without_content`, carrying exactly the request's bounds, size,
line height, font, alignments and shaping) to `compare`, then: on
`None` it does nothing, on `Bounds` it resizes the existing paragraph to
the request's bounds, on `Shape` it rebuilds via `with_text`; the stored
content is unchanged in all three branches. -/
theorem update_content_equal (B : Paragraph P F) (s : Plain P)
    (t : Text String F) (h : s.content = t.content) :
    Plain.update B s t =
      (match B.compare s.raw (Text.without_content t) with
        | Difference.None => s
        | Difference.Bounds => { s with raw := B.resize s.raw t.bounds }
        | Difference.Shape => { s with raw := B.with_text t }) ∧
    (Plain.update B s t).content = s.content := by
  constructor
  · unfold Plain.update
    rw [if_neg (fun hne => hne h)]
  · rw [Plain.update_content_eq]
    exact h.symm

/-- Witness for C2 at a concrete state and request with equal content. -/
theorem update_content_equal_app :
    samplePlainA.content = sampleTextA.content ∧
    (Plain.update modelBackend samplePlainA sampleTextA).content =
      samplePlainA.content :=
  ⟨rfl,
    (update_content_equal modelBackend samplePlainA sampleTextA rfl).2⟩

/-- C6: when the content matches and `compare` classifies the projection
as unchanged, `update` performs no corrective action: the wrapper after
the call is exactly the wrapper before it (same stored content, same
owned paragraph). -/
theorem update_unchanged_noop (B : Paragraph P F) (s : Plain P)
    (t : Text String F) (hc : s.content = t.content)
    (hd : B.compare s.raw (Text.without_content t) = Difference.None) :
    Plain.update B s t = s ∧
    (Plain.update B s t).content = s.content ∧
    (Plain.update B s t).raw = s.raw := by
  have h₁ := Plain.update_noop B s t hc hd
  exact ⟨h₁, by rw [h₁], by rw [h₁]⟩

/-- Witness for C6: an unchanged request against the model backend leaves
the wrapper untouched. -/
theorem update_unchanged_noop_app :
    Plain.update modelBackend samplePlainA sampleTextA = samplePlainA :=
  (update_unchanged_noop modelBackend samplePlainA sampleTextA rfl
    (by decide)).1

/-- C10: after any `Plain::update`, the stored content equals the
request's content: the differing-content path overwrites it, and every
other path required it to be equal already and left it untouched. -/
theorem update_content_postcondition (B : Paragraph P F) (s : Plain P)
    (t : Text String F) :
    (Plain.update B s t).content = t.content :=
  Plain.update_content_eq B s t

/-- C3: the derived ordering on `RedrawRequest` satisfies `NextFrame <
At t` for every instant `t`, orders `At` values exactly by their instants,
and equality is structural: `At t₁ = At t₂` iff `t₁ = t₂`, and `NextFrame`
never equals an `At` value. -/
theorem redraw_request_ordering [LinearOrder I] :
    (∀ t : I,
      (RedrawRequest.NextFrame : RedrawRequest I) < RedrawRequest.At t) ∧
    (∀ t₁ t₂ : I,
      (RedrawRequest.At t₁ : RedrawRequest I) < RedrawRequest.At t₂ ↔
        t₁ < t₂) ∧
    (∀ t₁ t₂ : I,
      (RedrawRequest.At t₁ : RedrawRequest I) = RedrawRequest.At t₂ ↔
        t₁ = t₂) ∧
    (∀ t : I,
      (RedrawRequest.NextFrame : RedrawRequest I) ≠ RedrawRequest.At t) := by
  refine ⟨fun t => True.intro, fun t₁ t₂ => Iff.rfl, fun t₁ t₂ => ?_,
    fun t h => ?_⟩
  · exact ⟨fun h => RedrawRequest.At.inj h, fun h => congrArg _ h⟩
  · exact RedrawRequest.noConfusion h

/-- Witness for C3 at the instant type ℕ. -/
theorem redraw_request_ordering_app :
    (RedrawRequest.NextFrame : RedrawRequest ℕ) < RedrawRequest.At 0 :=
  (redraw_request_ordering (I := ℕ)).1 0

/-- C4: the derived ordering on `RedrawRequest` is a strict total order
(transitive, irreflexive, trichotomous), its binary minimum is
associative, and the `min`-fold of any non-empty collection containing a
`NextFrame` yields `NextFrame`. -/
theorem redraw_request_strict_total_order [LinearOrder I] :
    (∀ a b c : RedrawRequest I, a < b → b < c → a < c) ∧
    (∀ a : RedrawRequest I, ¬a < a) ∧
    (∀ a b : RedrawRequest I, a < b ∨ a = b ∨ b < a) ∧
    (∀ a b c : RedrawRequest I, min (min a b) c = min a (min b c)) ∧
    (∀ (a : RedrawRequest I) (l : List (RedrawRequest I)),
      RedrawRequest.NextFrame ∈ a :: l →
        List.foldl min a l = RedrawRequest.NextFrame) := by
  refine ⟨fun a b c hab hbc => lt_trans hab hbc, fun a => lt_irrefl a,
    fun a b => lt_trichotomy a b, fun a b c => min_assoc a b c,
    fun a l h => ?_⟩
  rcases List.mem_cons.mp h with h₁ | h₂
  · rw [← h₁]
    exact RedrawRequest.foldl_min_nextFrame l
  · exact RedrawRequest.foldl_min_of_mem l a h₂

/-- Witness for C4: a concrete mixed collection over ℕ instants containing
a `NextFrame` folds to `NextFrame`. -/
theorem redraw_request_strict_total_order_app :
    List.foldl min (RedrawRequest.At 5)
      [RedrawRequest.NextFrame, RedrawRequest.At 1] =
      (RedrawRequest.NextFrame : RedrawRequest ℕ) :=
  (redraw_request_strict_total_order (I := ℕ)).2.2.2.2
    (RedrawRequest.At 5) [RedrawRequest.NextFrame, RedrawRequest.At 1]
    (by decide)

/-- C7: the read-only accessors of `Plain` — `min_bounds`, `min_width`,
`horizontal_alignment`, `vertical_alignment` and `raw` — each forward to
the corresponding query on the owned paragraph; being pure functions of
the wrapper they mutate neither the stored content nor the paragraph. -/
theorem plain_accessors_forward (B : Paragraph P F) (s : Plain P) :
    Plain.min_bounds B s = B.min_bounds s.raw ∧
    Plain.min_width B s = B.min_width s.raw ∧
    Plain.horizontal_alignment B s = B.horizontal_alignment s.raw ∧
    Plain.vertical_alignment B s = B.vertical_alignment s.raw ∧
    Plain.raw' s = s.raw :=
  ⟨rfl, rfl, rfl, rfl, rfl⟩

/-- C8: `Plain::new` stores an owned copy of the request's content and
builds the paragraph by applying the backend's `with_text` to the
request. -/
theorem plain_new_spec (B : Paragraph P F) (t : Text String F) :
    (Plain.new B t).content = t.content ∧
    (Plain.new B t).raw = B.with_text t :=
  ⟨rfl, rfl⟩

/-- C9: every operation of the wrapper is a total function (`update`
always produces a state), and the queries that may find nothing —
`hit_test` and `grapheme_position` — return an explicit optional value,
either absence or a result, for every input including out-of-range
ones. -/
theorem operations_total (B : Paragraph P F) :
    (∀ (s : Plain P) (t : Text String F),
      ∃ s' : Plain P, Plain.update B s t = s') ∧
    (∀ (p : P) (pt : Point),
      B.hit_test p pt = Option.none ∨
        ∃ h : Hit, B.hit_test p pt = Option.some h) ∧
    (∀ (p : P) (line idx : ℕ),
      B.grapheme_position p line idx = Option.none ∨
        ∃ q : Point, B.grapheme_position p line idx = Option.some q) := by
  refine ⟨fun s t => ⟨Plain.update B s t, rfl⟩, fun p pt => ?_,
    fun p line idx => ?_⟩
  · cases ho : B.hit_test p pt with
    | none => exact Or.inl rfl
    | some h => exact Or.inr ⟨h, rfl⟩
  · cases ho : B.grapheme_position p line idx with
    | none => exact Or.inl rfl
    | some q => exact Or.inr ⟨q, rfl⟩

/-- C5: idempotence of `update` under the spec's backend contract.  If
the backend exposes its build parameters through some map `g` such that
`with_text` records the request's projection, `resize` changes only the
recorded bounds, and `compare` classifies unchanged / bounds-only / shape
exactly as the contract prescribes, then after any `update` a second
`update` with the identical request classifies as unchanged and returns
the wrapper state unchanged. -/
theorem update_idempotent [DecidableEq F] (B : Paragraph P F)
    (g : P → Text Unit F)
    (hwt : ∀ t : Text String F, g (B.with_text t) = Text.without_content t)
    (hrs : ∀ (p : P) (b : Size), g (B.resize p b) = { g p with bounds := b })
    (hcmp : ∀ (p : P) (q : Text Unit F), B.compare p q =
      if g p = q then Difference.None
      else if { g p with bounds := q.bounds } = q then Difference.Bounds
      else Difference.Shape)
    (s : Plain P) (t : Text String F) :
    B.compare (Plain.update B s t).raw (Text.without_content t) =
      Difference.None ∧
    Plain.update B (Plain.update B s t) t = Plain.update B s t := by
  have hcontent : (Plain.update B s t).content = t.content :=
    Plain.update_content_eq B s t
  have hparams : g (Plain.update B s t).raw = Text.without_content t := by
    unfold Plain.update
    by_cases h : s.content = t.content
    · rw [if_neg (fun hne => hne h)]
      cases hd : B.compare s.raw (Text.without_content t) with
      | None =>
          have hif : (if g s.raw = Text.without_content t then
                Difference.None
              else if { g s.raw with
                    bounds := (Text.without_content t).bounds } =
                  Text.without_content t then Difference.Bounds
              else Difference.Shape) = Difference.None :=
            (hcmp s.raw (Text.without_content t)).symm.trans hd
          split_ifs at hif with h₁ h₂
          exact h₁
      | Bounds =>
          have hif : (if g s.raw = Text.without_content t then
                Difference.None
              else if { g s.raw with
                    bounds := (Text.without_content t).bounds } =
                  Text.without_content t then Difference.Bounds
              else Difference.Shape) = Difference.Bounds :=
            (hcmp s.raw (Text.without_content t)).symm.trans hd
          split_ifs at hif with h₁ h₂
          show g (B.resize s.raw t.bounds) = Text.without_content t
          rw [hrs]
          exact h₂
      | Shape => exact hwt t
    · rw [if_pos h]
      exact hwt t
  have hnone : B.compare (Plain.update B s t).raw (Text.without_content t) =
      Difference.None := by
    rw [hcmp, if_pos hparams]
  exact ⟨hnone, Plain.update_noop B (Plain.update B s t) t hcontent hnone⟩

/-- Witness for C5: the model backend satisfies the contract (its build
parameters are the paragraph itself), and a repeated concrete update is a
no-op. -/
theorem update_idempotent_app :
    Plain.update modelBackend
        (Plain.update modelBackend samplePlainA sampleTextB) sampleTextB =
      Plain.update modelBackend samplePlainA sampleTextB :=
  (update_idempotent modelBackend (fun p => p) (fun _ => rfl)
    (fun _ _ => rfl) (fun _ _ => rfl) samplePlainA sampleTextB).2

end Iced
